import Mathlib

/-!
Verification of the test-case editor service (Flask + marshmallow + Mongo +
Gemini helper) against its natural-language specification.

The development shallowly embeds the decision logic of the repository:

* `PyVal` models the JSON-like values the service handles (Python scalars,
  strings, dicts, lists).
* `json_loads` models Python `json.loads` on the JSON fragment the service
  exercises (objects, arrays, strings with the common escapes, integers with
  an optional fraction part, the three literals).  Exponent literals and
  `\u` escapes are not modelled; duplicate keys keep both entries.  Character
  case maps model `str.upper`/`str.lower` on ASCII, as the platform tokens
  are ASCII.
* `TestCaseSchema.load` / `GenerateSchema.load` model the marshmallow
  schemas of `schemas/testcase_schema.py`, with payloads as association
  lists of string keys to `PyVal` (Python dicts).
* `extract_json`, `generate_metadata`, `add_test_cases` and the PUT-handler
  loop model the corresponding functions of `api/prompt_manager.py` and
  `api/routes.py`.
-/

namespace TCE

/-! ## Python-like values -/

mutual

inductive PyVal : Type
  | vstr (s : String)
  | vbool (b : Bool)
  | vnum (intPart : Int) (fracDigits : String)
  | vnull
  | vdict (d : PyDict)
  | vlist (l : PyList)

inductive PyDict : Type
  | dnil
  | dcons (key : String) (value : PyVal) (rest : PyDict)

inductive PyList : Type
  | lnil
  | lcons (value : PyVal) (rest : PyList)

end

deriving instance DecidableEq for PyVal, PyDict, PyList

/-! ## Characters: ASCII case maps and Python string helpers -/

/-- The double-quote character. -/
def dq : Char := Char.ofNat 34

/-- The single-quote character. -/
def sq : Char := Char.ofNat 39

/-- Python `str.lower`, per character (ASCII). -/
def pyLowerChar (c : Char) : Char :=
  if 65 ≤ c.toNat ∧ c.toNat ≤ 90 then Char.ofNat (c.toNat + 32) else c

/-- Python `str.upper`, per character (ASCII). -/
def pyUpperChar (c : Char) : Char :=
  if 97 ≤ c.toNat ∧ c.toNat ≤ 122 then Char.ofNat (c.toNat - 32) else c

/-- Python `str.lower` (ASCII model). -/
def pyLower (s : String) : String := ⟨s.data.map pyLowerChar⟩

/-- Python `str.upper` (ASCII model). -/
def pyUpper (s : String) : String := ⟨s.data.map pyUpperChar⟩

/-- Whitespace stripped by Python `str.strip` (ASCII model). -/
def pyIsSpace (c : Char) : Bool :=
  c = ' ' || c = '\t' || c = '\n' || c = '\r' || c = Char.ofNat 11 || c = Char.ofNat 12

/-- Python `str.strip` (ASCII whitespace model). -/
def pyStrip (s : String) : String :=
  ⟨((s.data.dropWhile pyIsSpace).reverse.dropWhile pyIsSpace).reverse⟩

/-! ## A model of Python `json.loads`

Recursive-descent parser over the character list, with a fuel argument for
the nesting recursion so that every equation holds by kernel reduction. -/

/-- JSON whitespace (what Python `json.loads` skips between tokens). -/
def isJsonWs (c : Char) : Bool := c = ' ' || c = '\t' || c = '\n' || c = '\r'

def skipWs (cs : List Char) : List Char := cs.dropWhile isJsonWs

def isDigitCh (c : Char) : Bool := 48 ≤ c.toNat && c.toNat ≤ 57

def digitsToNat (acc : Nat) : List Char → Nat
  | [] => acc
  | c :: cs => digitsToNat (acc * 10 + (c.toNat - 48)) cs

/-- Body of a JSON string after the opening quote: the decoded characters
and the input after the closing quote.  The common single-character escapes
are modelled; a `\u` escape is not (the parser fails there). -/
def parseStrBody : List Char → Option (List Char × List Char)
  | [] => none
  | c :: cs =>
    if c = dq then some ([], cs)
    else if c = '\\' then
      match cs with
      | [] => none
      | e :: cs2 =>
        let esc : Option Char :=
          if e = dq then some dq
          else if e = '\\' then some '\\'
          else if e = '/' then some '/'
          else if e = 'n' then some '\n'
          else if e = 't' then some '\t'
          else if e = 'r' then some '\r'
          else if e = 'b' then some (Char.ofNat 8)
          else if e = 'f' then some (Char.ofNat 12)
          else none
        match esc with
        | none => none
        | some ch => (parseStrBody cs2).map (fun p => (ch :: p.1, p.2))
    else if c.toNat < 32 then none
    else (parseStrBody cs).map (fun p => (c :: p.1, p.2))

/-- A JSON number: optional minus, digits without a leading zero, optional
fraction.  Exponents are not modelled. -/
def parseNum (cs : List Char) : Option (PyVal × List Char) :=
  let neg : Bool := match cs with
    | c :: _ => c = '-'
    | [] => false
  let cs1 := if neg then cs.drop 1 else cs
  let digs := cs1.takeWhile isDigitCh
  let rest1 := cs1.dropWhile isDigitCh
  if digs = [] then none
  else if 1 < digs.length && digs.headD ' ' = '0' then none
  else
    let ipNat : Int := (digitsToNat 0 digs : Nat)
    let ip : Int := if neg then -ipNat else ipNat
    match rest1 with
    | c :: rest2 =>
      if c = '.' then
        let fr := rest2.takeWhile isDigitCh
        let rest3 := rest2.dropWhile isDigitCh
        if fr = [] then none else some (.vnum ip ⟨fr⟩, rest3)
      else some (.vnum ip "", rest1)
    | [] => some (.vnum ip "", rest1)

/-- Parsing mode: a value, the inside of an object, the inside of an array. -/
inductive PMode : Type
  | val
  | objBody
  | arrBody
deriving DecidableEq

/-- One recursive-descent step of the `json.loads` model.  In mode `objBody`
or `arrBody` the opening bracket and, for `objBody`, none of the entries have
been consumed yet; the result is the `vdict`/`vlist` and the rest of the
input after the closing bracket. -/
def parseP : Nat → PMode → List Char → Option (PyVal × List Char)
  | 0, _, _ => none
  | fuel + 1, .val, cs =>
    match skipWs cs with
    | [] => none
    | c :: rest =>
      if c = dq then (parseStrBody rest).map (fun p => (.vstr ⟨p.1⟩, p.2))
      else if c = Char.ofNat 123 then
        match skipWs rest with
        | c2 :: rest2 =>
          if c2 = Char.ofNat 125 then some (.vdict .dnil, rest2)
          else parseP fuel .objBody rest
        | [] => none
      else if c = '[' then
        match skipWs rest with
        | c2 :: rest2 =>
          if c2 = ']' then some (.vlist .lnil, rest2)
          else parseP fuel .arrBody rest
        | [] => none
      else if c = 't' then
        if rest.take 3 = ['r', 'u', 'e'] then some (.vbool true, rest.drop 3) else none
      else if c = 'f' then
        if rest.take 4 = ['a', 'l', 's', 'e'] then some (.vbool false, rest.drop 4) else none
      else if c = 'n' then
        if rest.take 3 = ['u', 'l', 'l'] then some (.vnull, rest.drop 3) else none
      else if c = '-' || isDigitCh c then parseNum (c :: rest)
      else none
  | fuel + 1, .objBody, cs =>
    match skipWs cs with
    | [] => none
    | c :: rest =>
      if c = dq then
        match parseStrBody rest with
        | none => none
        | some (key, r1) =>
          match skipWs r1 with
          | ':' :: r2 =>
            match parseP fuel .val r2 with
            | none => none
            | some (v, r3) =>
              match skipWs r3 with
              | c2 :: r4 =>
                if c2 = ',' then
                  match parseP fuel .objBody r4 with
                  | some (.vdict d, r5) => some (.vdict (.dcons ⟨key⟩ v d), r5)
                  | _ => none
                else if c2 = Char.ofNat 125 then some (.vdict (.dcons ⟨key⟩ v .dnil), r4)
                else none
              | [] => none
          | _ => none
      else none
  | fuel + 1, .arrBody, cs =>
    match parseP fuel .val cs with
    | none => none
    | some (v, r1) =>
      match skipWs r1 with
      | c :: r2 =>
        if c = ',' then
          match parseP fuel .arrBody r2 with
          | some (.vlist l, r3) => some (.vlist (.lcons v l), r3)
          | _ => none
        else if c = ']' then some (.vlist (.lcons v .lnil), r2)
        else none
      | [] => none

/-- Model of Python `json.loads`: parse one value, then only whitespace may
remain. -/
def json_loads (s : String) : Option PyVal :=
  match parseP (s.data.length + 1) .val s.data with
  | some (v, rest) => if skipWs rest = [] then some v else none
  | none => none

/-! ## `extract_json` of `api/prompt_manager.py` -/

/-- Python `str.find` for one character: index of the first occurrence. -/
def strFindCh (s : String) (c : Char) : Option Nat :=
  s.data.findIdx? (· = c)

/-- Python `str.rfind` for one character: index of the last occurrence. -/
def strRFindCh (s : String) (c : Char) : Option Nat :=
  (s.data.reverse.findIdx? (· = c)).map (fun i => s.data.length - 1 - i)

/-- Python slicing `s[a:b]` on code points (clamping, empty when `b ≤ a`). -/
def strSlice (s : String) (a b : Nat) : String := ⟨(s.data.take b).drop a⟩

/-- Python `str.replace` for single-character arguments. -/
def strReplaceCh (s : String) (a b : Char) : String :=
  ⟨s.data.map (fun c => if c = a then b else c)⟩

/-- `extract_json` of `api/prompt_manager.py`: parse the whole text; on
failure cut from the first opening brace to the last closing brace and parse
that; on failure replace single quotes by double quotes there and parse
again; `none` when everything fails (or the text is empty). -/
def extract_json (text : String) : Option PyVal :=
  if text = "" then none
  else
    match json_loads text with
    | some v => some v
    | none =>
      match strFindCh text (Char.ofNat 123), strRFindCh text (Char.ofNat 125) with
      | some start, some stop =>
        let candidate := strSlice text start (stop + 1)
        match json_loads candidate with
        | some v => some v
        | none => json_loads (strReplaceCh candidate sq dq)
      | _, _ => none

/-- The extractor as the spec words it (4.6): three parse attempts in order,
on the whole text, on the brace-delimited substring, and on that substring
with single quotes replaced by double quotes; `none` when all fail. -/
def extract_json_spec (text : String) : Option PyVal :=
  match json_loads text with
  | some v => some v
  | none =>
    match strFindCh text (Char.ofNat 123), strRFindCh text (Char.ofNat 125) with
    | some start, some stop =>
      let candidate := strSlice text start (stop + 1)
      match json_loads candidate with
      | some v => some v
      | none => json_loads (strReplaceCh candidate sq dq)
    | _, _ => none

/-! ## Payloads as Python dicts: association lists -/

/-- A Python dict payload: keys in insertion order. -/
abbrev AList : Type := List (String × PyVal)

/-- Python `d[k]` / `k in d` lookup (first binding; dicts have unique keys). -/
def alookup (k : String) : AList → Option PyVal
  | [] => none
  | (k2, v) :: rest => if k2 = k then some v else alookup k rest

/-- The keys of a payload. -/
def akeys (p : AList) : List String := p.map Prod.fst

/-- Python `d[k] = v` on a key already present: replace in place. -/
def aReplace (k : String) (v : PyVal) : AList → AList
  | [] => []
  | (k2, v2) :: rest =>
    if k2 = k then (k2, v) :: aReplace k v rest else (k2, v2) :: aReplace k v rest

/-- Python `d.update(u)`: present keys get the new value in place, new keys
append in order. -/
def aUpdate (d u : AList) : AList :=
  (d.map fun kv =>
    match alookup kv.1 u with
    | some v => (kv.1, v)
    | none => kv) ++
  u.filter (fun kv => !(akeys d).contains kv.1)

/-! ## `schemas/testcase_schema.py` -/

/-- `normalize_platform`: non-strings are rejected; the stripped value is
matched case-insensitively against the four canonical platform names (the
two source loops over `PLATFORMS`, unrolled in dict order). -/
def normalize_platform (value : PyVal) : Option String :=
  match value with
  | .vstr s =>
    let v := pyStrip s
    let u := pyUpper v
    if u = "LLM" then some "LLM"
    else if u = "WEB" then some "Web"
    else if u = "MOBILE" then some "Mobile"
    else if u = "API" then some "API"
    else
      let vl := pyLower v
      if vl = "llm" then some "LLM"
      else if vl = "web" then some "Web"
      else if vl = "mobile" then some "Mobile"
      else if vl = "api" then some "API"
      else none
  | _ => none

/-- `normalize_automated`: booleans pass through; the stripped lowercased
string tokens yes/y/true/1 and no/n/false/0 map to the booleans; everything
else is rejected. -/
def normalize_automated (value : PyVal) : Option PyVal :=
  match value with
  | .vbool b => some (.vbool b)
  | .vstr s =>
    let val := pyLower (pyStrip s)
    if val = "yes" || val = "y" || val = "true" || val = "1" then some (.vbool true)
    else if val = "no" || val = "n" || val = "false" || val = "0" then some (.vbool false)
    else none
  | _ => none

/-- The marshmallow field declarations of `TestCaseSchema`. -/
inductive FieldKind : Type
  | strReq
  | strOpt
  | strOptNull
  | rawOptNull
deriving DecidableEq

def FieldKind.isRequired : FieldKind → Bool
  | .strReq => true
  | _ => false

/-- Whether a present value deserializes for a field declaration: `Str`
fields need a string, `allow_none` admits null, `Raw` admits anything. -/
def FieldKind.checkVal : FieldKind → PyVal → Bool
  | .strReq, .vstr _ => true
  | .strReq, _ => false
  | .strOpt, .vstr _ => true
  | .strOpt, _ => false
  | .strOptNull, .vstr _ => true
  | .strOptNull, .vnull => true
  | .strOptNull, _ => false
  | .rawOptNull, _ => true

/-- The fields of `TestCaseSchema` in declaration order.  `cvss_score` is a
plain optional `Str` with `allow_none` (its range validator is commented out
in the source), `automated` is `Raw` with `allow_none`. -/
def fieldSpecs : List (String × FieldKind) :=
  [("vuln_id", .strReq), ("vuln_name", .strReq), ("platform", .strReq),
   ("analysis_type", .strOpt), ("owasp_ref", .strOpt), ("compliance", .strOpt),
   ("vuln_abstract", .strOpt), ("description", .strOpt), ("recommendation", .strOpt),
   ("example", .strOpt), ("cvss_score", .strOptNull), ("automated", .rawOptNull),
   ("severity", .strOpt)]

def fieldNames : List String := fieldSpecs.map Prod.fst

/-- Field-by-field deserialization: a required field must be present, a
present value must typecheck, the output keeps present fields in declaration
order. -/
def loadFields : List (String × FieldKind) → AList → Option AList
  | [], _ => some []
  | (n, k) :: rest, p =>
    match alookup n p with
    | none => if k.isRequired then none else loadFields rest p
    | some v =>
      if k.checkVal v then (loadFields rest p).map (fun out => (n, v) :: out)
      else none

/-- First half of the `@pre_load` hook `TestCaseSchema.normalize`: a
present non-null `platform` is replaced by `normalize_platform`; a
normalizer exception fails the load. -/
def normalizePlatformKey (p : AList) : Option AList :=
  match alookup "platform" p with
  | some v =>
    if v = .vnull then some p
    else (normalize_platform v).map (fun c => aReplace "platform" (.vstr c) p)
  | none => some p

/-- Second half of the `@pre_load` hook: a present non-null `Automated`
(capital A, exactly as the source spells the key) is replaced by
`normalize_automated`. -/
def normalizeAutomatedKey (p : AList) : Option AList :=
  match alookup "Automated" p with
  | some v =>
    if v = .vnull then some p
    else (normalize_automated v).map (fun b => aReplace "Automated" b p)
  | none => some p

/-- The `@pre_load` hook `TestCaseSchema.normalize`. -/
def preLoadNormalize (p : AList) : Option AList :=
  (normalizePlatformKey p).bind normalizeAutomatedKey

/-- `TestCaseSchema().load`: run the pre-load hook, reject unknown keys
(marshmallow's default RAISE policy), then deserialize the declared
fields. -/
def TestCaseSchema.load (p : AList) : Option AList :=
  (preLoadNormalize p).bind fun p1 =>
    if (akeys p1).all (fun k => fieldNames.contains k) then loadFields fieldSpecs p1
    else none

/-- `GenerateSchema().load`: the two required `Str` fields, unknown keys
rejected, then the `@validates` hook on `platform`: the deserialized value
must be exactly one of the four tokens, with no trimming and no case
normalization. -/
def GenerateSchema.load (p : AList) : Option AList :=
  if (akeys p).all (fun k => ["vuln_name", "platform"].contains k) then
    (loadFields [("vuln_name", .strReq), ("platform", .strReq)] p).bind fun out =>
      match alookup "platform" out with
      | some (.vstr v) =>
        if v = "LLM" || v = "Web" || v = "Mobile" || v = "API" then some out else none
      | _ => none
  else none

/-! ## `api/routes.py`: the generation endpoint -/

/-- Python truthiness on the modelled values. -/
def pyTruthy : PyVal → Bool
  | .vnull => false
  | .vbool b => b
  | .vstr s => !(s = "")
  | .vnum i f => !(i = 0 && f.data.all (· = '0'))
  | .vdict d => !(d = .dnil)
  | .vlist l => !(l = .lnil)

/-- Truthiness of `Optional` results (Python `None` is falsy). -/
def optTruthy : Option PyVal → Bool
  | none => false
  | some v => pyTruthy v

def PyDict.lookup (k : String) : PyDict → Option PyVal
  | .dnil => none
  | .dcons k2 v rest => if k2 = k then some v else PyDict.lookup k rest

/-- Python dict assignment `d[k] = v`: replace in place or append. -/
def PyDict.set : PyDict → String → PyVal → PyDict
  | .dnil, k, v => .dcons k v .dnil
  | .dcons k2 v2 rest, k, v =>
    if k2 = k then .dcons k2 v rest else .dcons k2 v2 (PyDict.set rest k v)

def PyList.mem (x : PyVal) : PyList → Bool
  | .lnil => false
  | .lcons v rest => v = x || PyList.mem x rest

/-- Whether `needle` occurs as a substring of `hay` (Python `in` on str). -/
def strContainsSub (hay needle : String) : Bool :=
  (List.range (hay.data.length + 1)).any
    (fun i => (hay.data.drop i).take needle.data.length = needle.data)

/-- The Python `in` operator as `generate_metadata` uses it: key membership
on dicts, substring on strings, element membership on lists; a `TypeError`
(modelled as `Except.error`) on the other values. -/
def pyContains (k : String) : PyVal → Except Unit Bool
  | .vdict d => .ok (d.lookup k).isSome
  | .vstr s => .ok (strContainsSub s k)
  | .vlist l => .ok (l.mem (.vstr k))
  | _ => .error ()

/-- Python item assignment `v[k] = x`: only dicts support it; everything
else raises a `TypeError`. -/
def pySetItem (v : PyVal) (k : String) (x : PyVal) : Except Unit PyVal :=
  match v with
  | .vdict d => .ok (.vdict (d.set k x))
  | _ => .error ()

/-- Lines 290 to 293 of `api/routes.py`: inject `@context` and `@type` when
absent.  On a non-dict `parsed` this raises, which the enclosing `except`
turns into a 502 `generation_failed` response. -/
def injectTags (parsed : PyVal) : Except Unit PyVal := do
  let hasCtx ← pyContains "@context" parsed
  let p1 ← if hasCtx then pure parsed else pySetItem parsed "@context" (.vstr "https://schema.org/")
  let hasTy ← pyContains "@type" p1
  if hasTy then pure p1 else pySetItem p1 "@type" (.vstr "SecurityVulnerability")

/-- The responses the generation endpoint can produce after validation. -/
inductive GenResponse : Type
  | ok200 (body : PyVal)
  | parseFailed502 (rawOutput : String)
  | generationFailed502
deriving DecidableEq

/-- The body of `generate_metadata` after schema validation, as a function
of the Gemini client result (the external call is the model's input).  When
the result is a string the extractor runs and a falsy extraction returns the
parse-failure response; otherwise `parsed = response` (the raw client
result, as in line 285 of the source) gets the tag injection, whose
`TypeError` on non-dicts becomes the generic 502. -/
def generate_metadata (response : PyVal) : GenResponse :=
  match response with
  | .vstr s =>
    if optTruthy (extract_json s) then
      match injectTags (.vstr s) with
      | .ok v => .ok200 v
      | .error _ => .generationFailed502
    else .parseFailed502 s
  | other =>
    match injectTags other with
    | .ok v => .ok200 v
    | .error _ => .generationFailed502

/-! ## `api/routes.py`: POST `/test_cases` -/

/-- The validation loop of `add_test_cases`: every item must load; the first
failure aborts with the 400 response before anything is inserted. -/
def validateAll : List AList → Option (List AList)
  | [] => some []
  | item :: rest =>
    match TestCaseSchema.load item with
    | none => none
    | some doc => (validateAll rest).map (doc :: ·)

/-- Outcome of `add_test_cases` on a list of items: the HTTP status and the
documents handed to the storage insert (empty on validation failure). -/
def add_test_cases (items : List AList) : Nat × List AList :=
  match validateAll items with
  | none => (400, [])
  | some docs => (201, docs)

/-! ## `api/routes.py`: PUT `/test_cases` -/

/-- Per-item outcome inside the update loop of `update_test_cases`. -/
inductive UpdateStep : Type
  | err
  | skip
  | upd (vulnId : PyVal) (updateDoc : AList)
deriving DecidableEq

/-- Lines 138 to 157 of `update_test_cases`, for one item: require
`vuln_id`; drop it; an empty remainder is skipped; otherwise merge into the
dummy payload (placeholder `vuln_name`), validate through the schema, drop
the dummy-only required keys, and keep exactly the validated fields that the
caller sent (except `vuln_id`). -/
def processItem (item : AList) : UpdateStep :=
  match alookup "vuln_id" item with
  | none => .err
  | some vid =>
    let up := item.filter (fun kv => !(kv.1 = "vuln_id"))
    if up = [] then .skip
    else
      let dummy := aUpdate [("vuln_id", vid), ("vuln_name", .vstr "DUMMY_NAME")] up
      match TestCaseSchema.load dummy with
      | none => .err
      | some validated =>
        let validated1 := validated.filter
          (fun kv => !((kv.1 = "vuln_id" || kv.1 = "vuln_name") && !(akeys item).contains kv.1))
        let updateDoc := validated1.filter
          (fun kv => (akeys item).contains kv.1 && !(kv.1 = "vuln_id"))
        .upd vid updateDoc

/-- MongoDB `update_one` with `$set`: named fields are replaced, missing
ones appended, everything else untouched. -/
def applySet (doc upd : AList) : AList := aUpdate doc upd

/-- Accumulated state of the update loop: the `updated` count, the
`not_found` ids, and the storage update operations issued. -/
structure UpdState : Type where
  updatedCount : Nat
  notFound : List PyVal
  ops : List (PyVal × AList)
deriving DecidableEq

/-- The loop of `update_test_cases` over the items, against a store holding
the existing `vuln_id` values: `none` models the 400 response of a failed
item validation; a skipped item touches nothing. -/
def processUpdates (store : List PyVal) : List AList → UpdState → Option UpdState
  | [], st => some st
  | item :: rest, st =>
    match processItem item with
    | .err => none
    | .skip => processUpdates store rest st
    | .upd vid doc =>
      if store.contains vid then
        processUpdates store rest
          ⟨st.updatedCount + 1, st.notFound, st.ops ++ [(vid, doc)]⟩
      else
        processUpdates store rest
          ⟨st.updatedCount, st.notFound ++ [vid], st.ops ++ [(vid, doc)]⟩

deriving instance DecidableEq for Except

/-! ## Helper lemmas: ASCII case maps -/

theorem char_toNat_inj {c d : Char} (h : c.toNat = d.toNat) : c = d :=
  Char.eq_of_val_eq (UInt32.ext h)

theorem toNat_ofNat_small {n : Nat} (h : n < 55296) : (Char.ofNat n).toNat = n := by
  have hv : n.isValidChar := Or.inl h
  unfold Char.ofNat
  rw [dif_pos hv]
  rfl

theorem ofNat_toNat_small {c : Char} (h : c.toNat < 55296) : Char.ofNat c.toNat = c :=
  char_toNat_inj (by rw [toNat_ofNat_small h])

/-- If lowercasing `c` gives the lowercase letter `d`, then uppercasing `c`
and uppercasing `d` agree. -/
theorem pyUpperChar_of_pyLowerChar {c d : Char} (hd1 : 97 ≤ d.toNat) (hd2 : d.toNat ≤ 122)
    (h : pyLowerChar c = d) : pyUpperChar c = pyUpperChar d := by
  unfold pyLowerChar at h
  by_cases hc : 65 ≤ c.toNat ∧ c.toNat ≤ 90
  · rw [if_pos hc] at h
    have h32 : c.toNat + 32 < 55296 := by omega
    have hdn : d.toNat = c.toNat + 32 := by rw [← h, toNat_ofNat_small h32]
    unfold pyUpperChar
    rw [if_neg (by omega), if_pos (by omega)]
    have he : d.toNat - 32 = c.toNat := by omega
    rw [he, ofNat_toNat_small (by omega)]
  · rw [if_neg hc] at h
    rw [h]

/-- If uppercasing `c` gives the uppercase letter `e`, then lowercasing `c`
and lowercasing `e` agree. -/
theorem pyLowerChar_of_pyUpperChar {c e : Char} (he1 : 65 ≤ e.toNat) (he2 : e.toNat ≤ 90)
    (h : pyUpperChar c = e) : pyLowerChar c = pyLowerChar e := by
  unfold pyUpperChar at h
  by_cases hc : 97 ≤ c.toNat ∧ c.toNat ≤ 122
  · rw [if_pos hc] at h
    have h32 : c.toNat - 32 < 55296 := by omega
    have hen : e.toNat = c.toNat - 32 := by rw [← h, toNat_ofNat_small h32]
    unfold pyLowerChar
    rw [if_neg (by omega), if_pos (by omega)]
    have he : e.toNat + 32 = c.toNat := by omega
    rw [he, ofNat_toNat_small (by omega)]
  · rw [if_neg hc] at h
    rw [h]

theorem map_upper_of_map_lower : ∀ (l m : List Char),
    (∀ x ∈ m, 97 ≤ x.toNat ∧ x.toNat ≤ 122) →
    l.map pyLowerChar = m → l.map pyUpperChar = m.map pyUpperChar
  | [], [], _, _ => rfl
  | [], _ :: _, _, h => by simp at h
  | _ :: _, [], _, h => by simp at h
  | c :: l, d :: m, hm, h => by
    simp only [List.map_cons, List.cons.injEq] at h ⊢
    have hd := hm d (by simp)
    exact ⟨pyUpperChar_of_pyLowerChar hd.1 hd.2 h.1,
      map_upper_of_map_lower l m (fun x hx => hm x (by simp [hx])) h.2⟩

theorem map_lower_of_map_upper : ∀ (l m : List Char),
    (∀ x ∈ m, 65 ≤ x.toNat ∧ x.toNat ≤ 90) →
    l.map pyUpperChar = m → l.map pyLowerChar = m.map pyLowerChar
  | [], [], _, _ => rfl
  | [], _ :: _, _, h => by simp at h
  | _ :: _, [], _, h => by simp at h
  | c :: l, e :: m, hm, h => by
    simp only [List.map_cons, List.cons.injEq] at h ⊢
    have he := hm e (by simp)
    exact ⟨pyLowerChar_of_pyUpperChar he.1 he.2 h.1,
      map_lower_of_map_upper l m (fun x hx => hm x (by simp [hx])) h.2⟩

theorem string_mk_inj {l m : List Char} (h : (⟨l⟩ : String) = ⟨m⟩) : l = m := by
  injection h

/-- A string whose lowercasing matches that of a word of ASCII letters has
the same uppercasing as that word. -/
theorem pyUpper_of_pyLower {t c : String}
    (hc : ∀ x ∈ c.data.map pyLowerChar, 97 ≤ x.toNat ∧ x.toNat ≤ 122)
    (h : pyLower t = pyLower c) : pyUpper t = pyUpper c := by
  have hdata : t.data.map pyLowerChar = c.data.map pyLowerChar := string_mk_inj h
  have h1 := map_upper_of_map_lower t.data (c.data.map pyLowerChar) hc hdata
  have h2 := map_upper_of_map_lower c.data (c.data.map pyLowerChar) hc rfl
  exact congrArg String.mk (h1.trans h2.symm)

/-- A string whose uppercasing is a word of uppercase ASCII letters has the
same lowercasing as that word. -/
theorem pyLower_of_pyUpper {t c : String}
    (hc : ∀ x ∈ c.data, 65 ≤ x.toNat ∧ x.toNat ≤ 90)
    (h : pyUpper t = c) : pyLower t = pyLower c := by
  have hdata : t.data.map pyUpperChar = c.data := string_mk_inj h
  exact congrArg String.mk (map_lower_of_map_upper t.data c.data hc hdata)

/-! ## Claim theorems -/

/-- Claim C1 (code bug): after a successful extraction from a text client
result, line 285 of `api/routes.py` (`parsed = response`) discards the
parsed object.  At the text result below the extractor succeeds, yet the
endpoint answers 502 `generation_failed` (the raw string supports no item
assignment) instead of the parsed object with the linked-data tags and
status 200 that the claim describes. -/
theorem generate_metadata_discards_parsed :
    extract_json "\x7b'owasp_ref': 'REF'\x7d" =
      some (.vdict (.dcons "owasp_ref" (.vstr "REF") .dnil)) ∧
    generate_metadata (.vstr "\x7b'owasp_ref': 'REF'\x7d") = .generationFailed502 ∧
    injectTags (.vdict (.dcons "owasp_ref" (.vstr "REF") .dnil)) =
      .ok (.vdict (.dcons "owasp_ref" (.vstr "REF")
        (.dcons "@context" (.vstr "https://schema.org/")
          (.dcons "@type" (.vstr "SecurityVulnerability") .dnil)))) := by
  decide

/-- Claim C2 (code bug): the `@pre_load` hook normalizes the key
`Automated`, but the schema field is `automated`, so a payload with
`automated: "yes"` loads with the raw string, not the boolean `True` the
claim (and `normalize_automated`) prescribe; `automated: "maybe"` is
accepted rather than rejected. -/
theorem automated_flag_not_normalized :
    TestCaseSchema.load [("vuln_id", .vstr "TCS_1"), ("vuln_name", .vstr "Prompt Injection"),
        ("platform", .vstr "LLM"), ("automated", .vstr "yes")] =
      some [("vuln_id", .vstr "TCS_1"), ("vuln_name", .vstr "Prompt Injection"),
        ("platform", .vstr "LLM"), ("automated", .vstr "yes")] ∧
    normalize_automated (.vstr "yes") = some (.vbool true) ∧
    (TestCaseSchema.load [("vuln_id", .vstr "TCS_1"), ("vuln_name", .vstr "Prompt Injection"),
        ("platform", .vstr "LLM"), ("automated", .vstr "maybe")]).isSome = true := by
  decide

/-- Claim C3, counterexample: a `cvss_score` of `"11.5"`, far outside the
claimed closed interval, is accepted by `TestCaseSchema.load` (the range
validator is commented out in the source). -/
theorem cvss_out_of_range_accepted :
    TestCaseSchema.load [("vuln_id", .vstr "TCS_1"), ("vuln_name", .vstr "n"),
        ("platform", .vstr "LLM"), ("cvss_score", .vstr "11.5")] =
      some [("vuln_id", .vstr "TCS_1"), ("vuln_name", .vstr "n"),
        ("platform", .vstr "LLM"), ("cvss_score", .vstr "11.5")] ∧
    (TestCaseSchema.load [("vuln_id", .vstr "TCS_1"), ("vuln_name", .vstr "n"),
        ("platform", .vstr "LLM"), ("cvss_score", .vstr "-1")]).isSome = true := by
  decide

/-- Claim C3 (corrected): a present `cvss_score` is accepted exactly when it
is null or a string of any content; no numeric parse or range check happens
(the `fields.Str` declaration is the only gate). -/
theorem cvss_score_accepts_any_string (v : PyVal) :
    (TestCaseSchema.load [("vuln_id", .vstr "TCS_1"), ("vuln_name", .vstr "n"),
        ("platform", .vstr "LLM"), ("cvss_score", v)]).isSome = true ↔
      (v = .vnull ∨ ∃ s, v = .vstr s) := by
  cases v with
  | vstr s => exact ⟨fun _ => Or.inr ⟨s, rfl⟩, fun _ => rfl⟩
  | vnull => exact ⟨fun _ => Or.inl rfl, fun _ => rfl⟩
  | vbool b =>
    refine ⟨fun h => ?_, by rintro (h | ⟨s, h⟩) <;> simp_all⟩
    have hn : TestCaseSchema.load [("vuln_id", .vstr "TCS_1"), ("vuln_name", .vstr "n"),
        ("platform", .vstr "LLM"), ("cvss_score", .vbool b)] = none := rfl
    rw [hn] at h
    simp at h
  | vnum i f =>
    refine ⟨fun h => ?_, by rintro (h | ⟨s, h⟩) <;> simp_all⟩
    have hn : TestCaseSchema.load [("vuln_id", .vstr "TCS_1"), ("vuln_name", .vstr "n"),
        ("platform", .vstr "LLM"), ("cvss_score", .vnum i f)] = none := rfl
    rw [hn] at h
    simp at h
  | vdict d =>
    refine ⟨fun h => ?_, by rintro (h | ⟨s, h⟩) <;> simp_all⟩
    have hn : TestCaseSchema.load [("vuln_id", .vstr "TCS_1"), ("vuln_name", .vstr "n"),
        ("platform", .vstr "LLM"), ("cvss_score", .vdict d)] = none := rfl
    rw [hn] at h
    simp at h
  | vlist l =>
    refine ⟨fun h => ?_, by rintro (h | ⟨s, h⟩) <;> simp_all⟩
    have hn : TestCaseSchema.load [("vuln_id", .vstr "TCS_1"), ("vuln_name", .vstr "n"),
        ("platform", .vstr "LLM"), ("cvss_score", .vlist l)] = none := rfl
    rw [hn] at h
    simp at h

/-- Claim C6 (confirmed): `extract_json` tries, in order: the whole text as
JSON, the substring from the first opening brace to the last closing brace,
and that substring with every single quote replaced by a double quote,
returning the first successful parse and null when all fail
(`extract_json_spec` states that three-attempt algorithm in the words of the
spec); the three example inputs of the claim behave as stated. -/
theorem extract_json_three_attempts :
    (∀ t : String, extract_json t = extract_json_spec t) ∧
    extract_json "\x7b\"a\":1\x7d" = some (.vdict (.dcons "a" (.vnum 1 "") .dnil)) ∧
    extract_json "noise \x7b'a': 1\x7d trailing" =
      some (.vdict (.dcons "a" (.vnum 1 "") .dnil)) ∧
    extract_json "not json at all" = none := by
  refine ⟨fun t => ?_, by decide, by decide, by decide⟩
  by_cases h : t = ""
  · subst h; decide
  · simp only [extract_json, extract_json_spec, if_neg h]

/-- Claim C4 (confirmed): every letter-casing of LLM, Web, Mobile or API,
possibly with surrounding whitespace, normalizes in `TestCaseSchema` to the
canonical spelling; every other string and every non-string value is
rejected.  A casing of `canon` is formalized as a string whose
character-wise ASCII lowercasing equals that of `canon`. -/
theorem normalize_platform_casings :
    (∀ s canon, canon ∈ ["LLM", "Web", "Mobile", "API"] →
        pyLower (pyStrip s) = pyLower canon →
        normalize_platform (.vstr s) = some canon) ∧
    (∀ s, (∀ canon ∈ ["LLM", "Web", "Mobile", "API"], pyLower (pyStrip s) ≠ pyLower canon) →
        normalize_platform (.vstr s) = none) ∧
    (∀ v : PyVal, (∀ s, v ≠ .vstr s) → normalize_platform v = none) := by
  refine ⟨?pos, ?neg, ?nonstr⟩
  case pos =>
    intro s canon hmem hcase
    simp only [List.mem_cons, List.mem_singleton] at hmem
    rcases hmem with h | h | h | h | h
    case inr.inr.inr.inr => cases h
    all_goals subst h
    · have hu : pyUpper (pyStrip s) = "LLM" := by
        have := pyUpper_of_pyLower (c := "LLM") (by decide) hcase
        rw [this]; decide
      simp only [normalize_platform]
      rw [hu, if_pos rfl]
    · have hu : pyUpper (pyStrip s) = "WEB" := by
        have := pyUpper_of_pyLower (c := "Web") (by decide) hcase
        rw [this]; decide
      simp only [normalize_platform]
      rw [hu, if_neg (by decide), if_pos rfl]
    · have hu : pyUpper (pyStrip s) = "MOBILE" := by
        have := pyUpper_of_pyLower (c := "Mobile") (by decide) hcase
        rw [this]; decide
      simp only [normalize_platform]
      rw [hu, if_neg (by decide), if_neg (by decide), if_pos rfl]
    · have hu : pyUpper (pyStrip s) = "API" := by
        have := pyUpper_of_pyLower (c := "API") (by decide) hcase
        rw [this]; decide
      simp only [normalize_platform]
      rw [hu, if_neg (by decide), if_neg (by decide), if_neg (by decide), if_pos rfl]
  case neg =>
    intro s hall
    have hl1 : pyLower (pyStrip s) ≠ "llm" := by
      have := hall "LLM" (by decide); simpa using this
    have hl2 : pyLower (pyStrip s) ≠ "web" := by
      have := hall "Web" (by decide); simpa using this
    have hl3 : pyLower (pyStrip s) ≠ "mobile" := by
      have := hall "Mobile" (by decide); simpa using this
    have hl4 : pyLower (pyStrip s) ≠ "api" := by
      have := hall "API" (by decide); simpa using this
    have hu1 : pyUpper (pyStrip s) ≠ "LLM" := by
      intro h
      exact hl1 (by simpa using pyLower_of_pyUpper (c := "LLM") (by decide) h)
    have hu2 : pyUpper (pyStrip s) ≠ "WEB" := by
      intro h
      exact hl2 (by simpa using pyLower_of_pyUpper (c := "WEB") (by decide) h)
    have hu3 : pyUpper (pyStrip s) ≠ "MOBILE" := by
      intro h
      exact hl3 (by simpa using pyLower_of_pyUpper (c := "MOBILE") (by decide) h)
    have hu4 : pyUpper (pyStrip s) ≠ "API" := by
      intro h
      exact hl4 (by simpa using pyLower_of_pyUpper (c := "API") (by decide) h)
    simp only [normalize_platform]
    rw [if_neg hu1, if_neg hu2, if_neg hu3, if_neg hu4,
      if_neg hl1, if_neg hl2, if_neg hl3, if_neg hl4]
  case nonstr =>
    intro v hv
    cases v with
    | vstr s => exact absurd rfl (hv s)
    | vbool b => rfl
    | vnum i f => rfl
    | vnull => rfl
    | vdict d => rfl
    | vlist l => rfl

/-- Witness for C4 at concrete inputs. -/
theorem normalize_platform_casings_witness :
    normalize_platform (.vstr "  weB ") = some "Web" ∧
    normalize_platform (.vstr "Windows") = none ∧
    normalize_platform (.vbool true) = none :=
  ⟨normalize_platform_casings.1 "  weB " "Web" (by decide) (by decide),
   normalize_platform_casings.2.1 "Windows" (by decide),
   normalize_platform_casings.2.2 (.vbool true) (by intro s h; cases h)⟩

/-- Claim C5 (corrected): `GenerateSchema.load`, on a payload whose keys
are among `vuln_name` and `platform`, succeeds exactly when `platform` is a
string equal to one of the four exact tokens LLM, Web, Mobile, API (no
trimming, no case normalization) and `vuln_name` is present and a string;
emptiness of `vuln_name` is NOT checked (the claimed non-empty-after-trim
condition does not exist in the code). -/
theorem generate_load_iff (p : AList)
    (hkeys : ∀ kv ∈ p, kv.1 = "vuln_name" ∨ kv.1 = "platform") :
    (GenerateSchema.load p).isSome = true ↔
      ((∃ s, alookup "vuln_name" p = some (.vstr s)) ∧
       (∃ t, alookup "platform" p = some (.vstr t) ∧
         (t = "LLM" ∨ t = "Web" ∨ t = "Mobile" ∨ t = "API"))) := by
  have hall : ((akeys p).all (fun k => ["vuln_name", "platform"].contains k)) = true := by
    rw [List.all_eq_true]
    intro k hk
    simp only [akeys, List.mem_map] at hk
    obtain ⟨kv, hkv, rfl⟩ := hk
    rcases hkeys kv hkv with h | h <;> simp [h]
  rw [GenerateSchema.load, if_pos hall]
  rcases h1 : alookup "vuln_name" p with _ | v1
  · simp [loadFields, h1, FieldKind.isRequired]
  · rcases h2 : alookup "platform" p with _ | v2
    · cases v1 <;> simp [loadFields, h1, h2, FieldKind.checkVal, FieldKind.isRequired]
    · cases v1 with
      | vstr s1 =>
        cases v2 with
        | vstr s2 =>
          simp only [loadFields, h1, h2, FieldKind.checkVal, FieldKind.isRequired,
            if_pos, Option.map_some]
          by_cases hv : s2 = "LLM" ∨ s2 = "Web" ∨ s2 = "Mobile" ∨ s2 = "API"
          · have hb : (s2 = "LLM" || s2 = "Web" || s2 = "Mobile" || s2 = "API") = true := by
              rcases hv with h | h | h | h <;> simp [h]
            simp [alookup, hb]
            tauto
          · have hb : (s2 = "LLM" || s2 = "Web" || s2 = "Mobile" || s2 = "API") = false := by
              push_neg at hv
              simp [hv.1, hv.2.1, hv.2.2.1, hv.2.2.2]
            simp [alookup, hb]
            tauto
        | vbool b => simp [loadFields, h1, h2, FieldKind.checkVal]
        | vnum i f => simp [loadFields, h1, h2, FieldKind.checkVal]
        | vnull => simp [loadFields, h1, h2, FieldKind.checkVal]
        | vdict d => simp [loadFields, h1, h2, FieldKind.checkVal]
        | vlist l => simp [loadFields, h1, h2, FieldKind.checkVal]
      | vbool b => simp [loadFields, h1, h2, FieldKind.checkVal]
      | vnum i f => simp [loadFields, h1, h2, FieldKind.checkVal]
      | vnull => simp [loadFields, h1, h2, FieldKind.checkVal]
      | vdict d => simp [loadFields, h1, h2, FieldKind.checkVal]
      | vlist l => simp [loadFields, h1, h2, FieldKind.checkVal]

/-- Witness for C5 at a concrete payload. -/
theorem generate_load_iff_witness :
    (GenerateSchema.load [("vuln_name", .vstr "x"), ("platform", .vstr "LLM")]).isSome = true :=
  (generate_load_iff [("vuln_name", .vstr "x"), ("platform", .vstr "LLM")]
    (by decide)).mpr ⟨⟨"x", rfl⟩, "LLM", rfl, Or.inl rfl⟩

/-- Claim C5, counterexample: a `vuln_name` that is empty (or blank after
trimming) is accepted, where the claim requires the load to fail. -/
theorem generate_schema_accepts_empty_vuln_name :
    GenerateSchema.load [("vuln_name", .vstr ""), ("platform", .vstr "LLM")] =
      some [("vuln_name", .vstr ""), ("platform", .vstr "LLM")] ∧
    GenerateSchema.load [("vuln_name", .vstr "   "), ("platform", .vstr "LLM")] =
      some [("vuln_name", .vstr "   "), ("platform", .vstr "LLM")] := by
  decide

/-! Association-list lemmas -/

theorem alookup_eq_none_iff {k : String} : ∀ {p : AList}, alookup k p = none ↔ k ∉ akeys p
  | [] => by simp [alookup, akeys]
  | (k2, v) :: rest => by
    simp only [alookup, akeys, List.map_cons, List.mem_cons]
    by_cases h : k2 = k
    · simp [h]
    · simp only [if_neg h]
      rw [alookup_eq_none_iff]
      simp [akeys, Ne.symm h]

theorem alookup_isSome_iff {k : String} {p : AList} :
    (alookup k p).isSome = true ↔ k ∈ akeys p := by
  rcases h : alookup k p with _ | v
  · simp [alookup_eq_none_iff.mp h]
  · simp only [Option.isSome_some, true_iff]
    by_contra hk
    rw [← alookup_eq_none_iff] at hk
    rw [h] at hk
    cases hk

theorem akeys_append {p q : AList} : akeys (p ++ q) = akeys p ++ akeys q := by
  simp [akeys]

theorem akeys_filter_key (g : String → Bool) (p : AList) :
    akeys (p.filter (fun kv => g kv.1)) = (akeys p).filter g := by
  induction p with
  | nil => rfl
  | cons kv rest ih =>
    by_cases h : g kv.1
    · simp [akeys, List.filter_cons, h] at ih ⊢
      exact ih
    · simp [akeys, List.filter_cons, h] at ih ⊢
      exact ih

theorem akeys_aReplace {k : String} {v : PyVal} : ∀ {p : AList},
    akeys (aReplace k v p) = akeys p
  | [] => rfl
  | (k2, v2) :: rest => by
    by_cases h : k2 = k <;>
      simp [aReplace, akeys, h, akeys_aReplace (p := rest), akeys] <;>
      simpa [akeys] using akeys_aReplace (k := k) (v := v) (p := rest)

theorem alookup_aReplace_self {k : String} {v w : PyVal} : ∀ {p : AList},
    alookup k p = some w → alookup k (aReplace k v p) = some v
  | [], h => by cases h
  | (k2, v2) :: rest, h => by
    by_cases hk : k2 = k
    · simp [aReplace, alookup, hk]
    · simp only [alookup, if_neg hk] at h
      simp only [aReplace, if_neg hk, alookup]
      exact alookup_aReplace_self h

theorem alookup_aReplace_other {k k2 : String} {v : PyVal} (hne : k2 ≠ k) : ∀ {p : AList},
    alookup k (aReplace k2 v p) = alookup k p
  | [] => rfl
  | (k3, v3) :: rest => by
    by_cases hk : k3 = k2
    · simp only [aReplace, if_pos hk, alookup]
      rw [hk, if_neg hne, if_neg hne]
      exact alookup_aReplace_other hne
    · simp only [aReplace, if_neg hk, alookup]
      by_cases h3 : k3 = k
      · simp [h3]
      · rw [if_neg h3, if_neg h3]
        exact alookup_aReplace_other hne

theorem aReplace_not_mem {k : String} {v : PyVal} : ∀ {p : AList},
    k ∉ akeys p → aReplace k v p = p
  | [], _ => rfl
  | (k2, v2) :: rest, h => by
    simp only [akeys, List.map_cons, List.mem_cons, not_or] at h
    have hne : ¬(k2 = k) := fun he => h.1 he.symm
    simp only [aReplace, if_neg hne]
    rw [aReplace_not_mem (by simpa [akeys] using h.2)]

theorem aReplace_self_eq {k : String} {v : PyVal} : ∀ {p : AList},
    (akeys p).Nodup → alookup k p = some v → aReplace k v p = p
  | [], _, h => by cases h
  | (k2, v2) :: rest, hnd, h => by
    simp only [akeys, List.map_cons, List.nodup_cons] at hnd
    by_cases hk : k2 = k
    · simp only [alookup, if_pos hk] at h
      injection h with h
      simp only [aReplace, if_pos hk, h]
      rw [aReplace_not_mem (by rw [← hk]; exact hnd.1)]
    · simp only [alookup, if_neg hk] at h
      simp only [aReplace, if_neg hk]
      rw [aReplace_self_eq (by simpa [akeys] using hnd.2) h]


theorem loadFields_keys_iff : ∀ {specs : List (String × FieldKind)} {p out : AList},
    loadFields specs p = some out →
    ∀ k, k ∈ akeys out ↔ (k ∈ specs.map Prod.fst ∧ k ∈ akeys p)
  | [], p, out, h, k => by
    simp only [loadFields] at h
    injection h with h
    subst h
    simp [akeys]
  | (n, kind) :: rest, p, out, h, k => by
    simp only [loadFields] at h
    rcases hn : alookup n p with _ | v <;> rw [hn] at h
    · replace h : (if kind.isRequired = true then none else loadFields rest p) = some out := h
      rcases hr : kind.isRequired with _ | _ <;> rw [hr] at h
      · rw [if_neg (by simp)] at h
        rw [loadFields_keys_iff h k]
        simp only [List.map_cons, List.mem_cons]
        constructor
        · rintro ⟨hk, hp⟩
          exact ⟨Or.inr hk, hp⟩
        · rintro ⟨hk | hk, hp⟩
          · subst hk
            exact absurd hp (alookup_eq_none_iff.mp hn)
          · exact ⟨hk, hp⟩
      · rw [if_pos rfl] at h
        cases h
    · replace h : (if kind.checkVal v = true then
          Option.map (fun out => (n, v) :: out) (loadFields rest p) else none) = some out := h
      rcases hc : kind.checkVal v with _ | _ <;> rw [hc] at h
      · rw [if_neg (by simp)] at h
        cases h
      · rw [if_pos rfl] at h
        rcases hlf : loadFields rest p with _ | out1 <;> rw [hlf] at h
        · cases h
        · replace h : some ((n, v) :: out1) = some out := h
          injection h with h
          subst h
          simp only [akeys, List.map_cons, List.mem_cons]
          rw [show List.map Prod.fst out1 = akeys out1 from rfl]
          rw [loadFields_keys_iff hlf k]
          constructor
          · rintro (rfl | ⟨hk, hp⟩)
            · exact ⟨by simp, alookup_isSome_iff.mp (by simp [hn])⟩
            · exact ⟨Or.inr hk, hp⟩
          · rintro ⟨hk | hk, hp⟩
            · exact Or.inl hk
            · exact Or.inr ⟨hk, hp⟩


theorem loadFields_irrel {n : String} {v : PyVal} : ∀ {specs : List (String × FieldKind)}
    {p : AList}, n ∉ specs.map Prod.fst → loadFields specs ((n, v) :: p) = loadFields specs p
  | [], p, _ => rfl
  | (m, kind) :: rest, p, h => by
    simp only [List.map_cons, List.mem_cons, not_or] at h
    have hlk : alookup m ((n, v) :: p) = alookup m p := by
      simp only [alookup, if_neg h.1]
    simp only [loadFields, hlk]
    rw [loadFields_irrel h.2]

theorem loadFields_sublist : ∀ {specs : List (String × FieldKind)} {p out : AList},
    loadFields specs p = some out → (akeys out).Sublist (specs.map Prod.fst)
  | [], p, out, h => by
    simp only [loadFields] at h
    injection h with h
    subst h
    simp [akeys]
  | (n, kind) :: rest, p, out, h => by
    simp only [loadFields] at h
    rcases hn : alookup n p with _ | v <;> rw [hn] at h
    · replace h : (if kind.isRequired = true then none else loadFields rest p) = some out := h
      rcases hr : kind.isRequired with _ | _ <;> rw [hr] at h
      · rw [if_neg (by simp)] at h
        exact (loadFields_sublist h).cons n
      · rw [if_pos rfl] at h
        cases h
    · replace h : (if kind.checkVal v = true then
          Option.map (fun out => (n, v) :: out) (loadFields rest p) else none) = some out := h
      rcases hc : kind.checkVal v with _ | _ <;> rw [hc] at h
      · rw [if_neg (by simp)] at h
        cases h
      · rw [if_pos rfl] at h
        rcases hlf : loadFields rest p with _ | out1 <;> rw [hlf] at h
        · cases h
        · replace h : some ((n, v) :: out1) = some out := h
          injection h with h
          subst h
          simpa [akeys] using (loadFields_sublist hlf).cons₂ n


theorem loadFields_idem : ∀ {specs : List (String × FieldKind)} {p out : AList},
    (specs.map Prod.fst).Nodup → loadFields specs p = some out →
    loadFields specs out = some out
  | [], p, out, _, h => by
    simp only [loadFields] at h ⊢
    injection h with h
    subst h
    rfl
  | (n, kind) :: rest, p, out, hnd, h => by
    simp only [List.map_cons, List.nodup_cons] at hnd
    simp only [loadFields] at h ⊢
    rcases hn : alookup n p with _ | v <;> rw [hn] at h
    · replace h : (if kind.isRequired = true then none else loadFields rest p) = some out := h
      rcases hr : kind.isRequired with _ | _ <;> rw [hr] at h
      · rw [if_neg (by simp)] at h
        have hsub := loadFields_sublist h
        have hnotin : alookup n out = none := by
          rw [alookup_eq_none_iff]
          intro hmem
          exact hnd.1 (hsub.subset hmem)
        rw [hnotin]
        show (if false = true then none else loadFields rest out) = some out
        rw [if_neg (by simp)]
        exact loadFields_idem hnd.2 h
      · rw [if_pos rfl] at h
        cases h
    · replace h : (if kind.checkVal v = true then
          Option.map (fun out => (n, v) :: out) (loadFields rest p) else none) = some out := h
      rcases hc : kind.checkVal v with _ | _ <;> rw [hc] at h
      · rw [if_neg (by simp)] at h
        cases h
      · rw [if_pos rfl] at h
        rcases hlf : loadFields rest p with _ | out1 <;> rw [hlf] at h
        · cases h
        · replace h : some ((n, v) :: out1) = some out := h
          injection h with h
          subst h
          have hlk : alookup n ((n, v) :: out1) = some v := by simp [alookup]
          rw [hlk]
          show (if kind.checkVal v = true then
              Option.map (fun out => (n, v) :: out) (loadFields rest ((n, v) :: out1))
            else none) = some ((n, v) :: out1)
          rw [hc, if_pos rfl, loadFields_irrel hnd.1, loadFields_idem hnd.2 hlf]
          rfl

theorem loadFields_lookup_eq : ∀ {specs : List (String × FieldKind)} {p out : AList},
    (specs.map Prod.fst).Nodup → loadFields specs p = some out →
    ∀ n, n ∈ specs.map Prod.fst → alookup n out = alookup n p
  | [], p, out, _, h, n, hmem => by cases hmem
  | (m, kind) :: rest, p, out, hnd, h, n, hmem => by
    simp only [List.map_cons, List.nodup_cons] at hnd
    simp only [List.map_cons, List.mem_cons] at hmem
    simp only [loadFields] at h
    rcases hm : alookup m p with _ | v <;> rw [hm] at h
    · replace h : (if kind.isRequired = true then none else loadFields rest p) = some out := h
      rcases hr : kind.isRequired with _ | _ <;> rw [hr] at h
      · rw [if_neg (by simp)] at h
        rcases hmem with rfl | hmem
        · have : alookup n out = none := by
            rw [alookup_eq_none_iff]
            intro hin
            exact hnd.1 ((loadFields_sublist h).subset hin)
          rw [this, hm]
        · exact loadFields_lookup_eq hnd.2 h n hmem
      · rw [if_pos rfl] at h
        cases h
    · replace h : (if kind.checkVal v = true then
          Option.map (fun out => (m, v) :: out) (loadFields rest p) else none) = some out := h
      rcases hc : kind.checkVal v with _ | _ <;> rw [hc] at h
      · rw [if_neg (by simp)] at h
        cases h
      · rw [if_pos rfl] at h
        rcases hlf : loadFields rest p with _ | out1 <;> rw [hlf] at h
        · cases h
        · replace h : some ((m, v) :: out1) = some out := h
          injection h with h
          subst h
          rcases hmem with rfl | hmem
          · simp [alookup, hm]
          · have hne : ¬(m = n) := fun he => hnd.1 (he ▸ hmem)
            simp only [alookup, if_neg hne]
            exact loadFields_lookup_eq hnd.2 hlf n hmem

theorem loadFields_required_isSome : ∀ {specs : List (String × FieldKind)} {p out : AList},
    loadFields specs p = some out → ∀ n kind, (n, kind) ∈ specs →
    kind.isRequired = true → (alookup n p).isSome = true
  | [], p, out, h, n, kind, hmem, _ => by cases hmem
  | (m, k2) :: rest, p, out, h, n, kind, hmem, hreq => by
    simp only [loadFields] at h
    rcases hm : alookup m p with _ | v <;> rw [hm] at h
    · replace h : (if k2.isRequired = true then none else loadFields rest p) = some out := h
      rcases hr : k2.isRequired with _ | _ <;> rw [hr] at h
      · rw [if_neg (by simp)] at h
        rcases List.mem_cons.mp hmem with heq | hmem2
        · injection heq with h1 h2
          subst h1; subst h2
          rw [hreq] at hr
          cases hr
        · exact loadFields_required_isSome h n kind hmem2 hreq
      · rw [if_pos rfl] at h
        cases h
    · replace h : (if k2.checkVal v = true then
          Option.map (fun out => (m, v) :: out) (loadFields rest p) else none) = some out := h
      rcases hc : k2.checkVal v with _ | _ <;> rw [hc] at h
      · rw [if_neg (by simp)] at h
        cases h
      · rw [if_pos rfl] at h
        rcases hlf : loadFields rest p with _ | out1 <;> rw [hlf] at h
        · cases h
        · rcases List.mem_cons.mp hmem with heq | hmem2
          · injection heq with h1 h2
            subst h1
            rw [hm]
            rfl
          · exact loadFields_required_isSome hlf n kind hmem2 hreq

theorem loadFields_checkVal_of_mem : ∀ {specs : List (String × FieldKind)} {p out : AList},
    (specs.map Prod.fst).Nodup → loadFields specs p = some out → ∀ n kind v,
    (n, kind) ∈ specs → alookup n p = some v → kind.checkVal v = true
  | [], p, out, _, h, n, kind, v, hmem, _ => by cases hmem
  | (m, k2) :: rest, p, out, hnd, h, n, kind, v, hmem, hv => by
    simp only [List.map_cons, List.nodup_cons] at hnd
    simp only [loadFields] at h
    rcases hm : alookup m p with _ | w <;> rw [hm] at h
    · replace h : (if k2.isRequired = true then none else loadFields rest p) = some out := h
      rcases hr : k2.isRequired with _ | _ <;> rw [hr] at h
      · rw [if_neg (by simp)] at h
        rcases List.mem_cons.mp hmem with heq | hmem2
        · injection heq with h1 h2
          subst h1
          rw [hv] at hm
          cases hm
        · exact loadFields_checkVal_of_mem hnd.2 h n kind v hmem2 hv
      · rw [if_pos rfl] at h
        cases h
    · replace h : (if k2.checkVal w = true then
          Option.map (fun out => (m, w) :: out) (loadFields rest p) else none) = some out := h
      rcases hc : k2.checkVal w with _ | _ <;> rw [hc] at h
      · rw [if_neg (by simp)] at h
        cases h
      · rw [if_pos rfl] at h
        rcases hlf : loadFields rest p with _ | out1 <;> rw [hlf] at h
        · cases h
        · rcases List.mem_cons.mp hmem with heq | hmem2
          · injection heq with h1 h2
            subst h1; subst h2
            rw [hv] at hm
            injection hm with hm
            subst hm
            exact hc
          · exact loadFields_checkVal_of_mem hnd.2 hlf n kind v hmem2 hv


/-- The outputs of `normalize_platform` are fixed points of it. -/
theorem normalize_platform_canonical {w : PyVal} {c : String}
    (h : normalize_platform w = some c) : normalize_platform (.vstr c) = some c := by
  cases w with
  | vstr s =>
    simp only [normalize_platform] at h
    split at h
    · injection h with h; subst h; decide
    · split at h
      · injection h with h; subst h; decide
      · split at h
        · injection h with h; subst h; decide
        · split at h
          · injection h with h; subst h; decide
          · split at h
            · injection h with h; subst h; decide
            · split at h
              · injection h with h; subst h; decide
              · split at h
                · injection h with h; subst h; decide
                · split at h
                  · injection h with h; subst h; decide
                  · cases h
  | vbool b => cases h
  | vnum i f => cases h
  | vnull => cases h
  | vdict d => cases h
  | vlist l => cases h

theorem checkVal_strReq_shape {v : PyVal} (h : FieldKind.strReq.checkVal v = true) :
    ∃ s, v = .vstr s := by
  cases v <;> first | exact ⟨_, rfl⟩ | cases h


/-- The `Automated` half of the pre-load hook does not touch other keys. -/
theorem normalizeAutomatedKey_lookup {p p1 : AList} {k : String} (hk : k ≠ "Automated")
    (h : normalizeAutomatedKey p = some p1) : alookup k p1 = alookup k p := by
  simp only [normalizeAutomatedKey] at h
  rcases ha : alookup "Automated" p with _ | av <;> rw [ha] at h
  · injection h with h; subst h; rfl
  · replace h : (if av = .vnull then some p
        else (normalize_automated av).map (fun b => aReplace "Automated" b p)) = some p1 := h
    by_cases hnull : av = .vnull
    · rw [if_pos hnull] at h
      injection h with h; subst h; rfl
    · rw [if_neg hnull] at h
      rcases hna : normalize_automated av with _ | b <;> rw [hna] at h
      · cases h
      · replace h : some (aReplace "Automated" b p) = some p1 := h
        injection h with h
        subst h
        exact alookup_aReplace_other (fun he => hk he.symm)

theorem normalizeAutomatedKey_keys {p p1 : AList}
    (h : normalizeAutomatedKey p = some p1) : akeys p1 = akeys p := by
  simp only [normalizeAutomatedKey] at h
  rcases ha : alookup "Automated" p with _ | av <;> rw [ha] at h
  · injection h with h; subst h; rfl
  · replace h : (if av = .vnull then some p
        else (normalize_automated av).map (fun b => aReplace "Automated" b p)) = some p1 := h
    by_cases hnull : av = .vnull
    · rw [if_pos hnull] at h
      injection h with h; subst h; rfl
    · rw [if_neg hnull] at h
      rcases hna : normalize_automated av with _ | b <;> rw [hna] at h
      · cases h
      · replace h : some (aReplace "Automated" b p) = some p1 := h
        injection h with h
        subst h
        exact akeys_aReplace

theorem normalizePlatformKey_keys {p p1 : AList}
    (h : normalizePlatformKey p = some p1) : akeys p1 = akeys p := by
  simp only [normalizePlatformKey] at h
  rcases hp : alookup "platform" p with _ | w <;> rw [hp] at h
  · injection h with h; subst h; rfl
  · replace h : (if w = .vnull then some p
        else (normalize_platform w).map (fun c => aReplace "platform" (.vstr c) p)) = some p1 := h
    by_cases hnull : w = .vnull
    · rw [if_pos hnull] at h
      injection h with h; subst h; rfl
    · rw [if_neg hnull] at h
      rcases hnp : normalize_platform w with _ | c <;> rw [hnp] at h
      · cases h
      · replace h : some (aReplace "platform" (.vstr c) p) = some p1 := h
        injection h with h
        subst h
        exact akeys_aReplace

theorem preLoadNormalize_keys {p p1 : AList}
    (h : preLoadNormalize p = some p1) : akeys p1 = akeys p := by
  simp only [preLoadNormalize] at h
  rcases h1 : normalizePlatformKey p with _ | q <;> rw [h1] at h
  · cases h
  · replace h : normalizeAutomatedKey q = some p1 := h
    rw [normalizeAutomatedKey_keys h, normalizePlatformKey_keys h1]

/-- What `preLoadNormalize` leaves at the `platform` key. -/
theorem preLoad_platform {p p1 : AList} (h : preLoadNormalize p = some p1) :
    (alookup "platform" p1 = none) ∨
    (alookup "platform" p1 = some .vnull) ∨
    (∃ w c, alookup "platform" p = some w ∧ normalize_platform w = some c ∧
      alookup "platform" p1 = some (.vstr c)) := by
  simp only [preLoadNormalize] at h
  rcases h1 : normalizePlatformKey p with _ | q <;> rw [h1] at h
  · cases h
  · replace h : normalizeAutomatedKey q = some p1 := h
    have hkeep : alookup "platform" p1 = alookup "platform" q :=
      normalizeAutomatedKey_lookup (by decide) h
    simp only [normalizePlatformKey] at h1
    rcases hp : alookup "platform" p with _ | w <;> rw [hp] at h1
    · injection h1 with h1
      subst h1
      rw [hkeep, hp]
      exact Or.inl rfl
    · replace h1 : (if w = .vnull then some p
          else (normalize_platform w).map (fun c => aReplace "platform" (.vstr c) p)) =
            some q := h1
      by_cases hnull : w = .vnull
      · rw [if_pos hnull] at h1
        injection h1 with h1
        subst h1
        rw [hkeep, hp, hnull]
        exact Or.inr (Or.inl rfl)
      · rw [if_neg hnull] at h1
        rcases hnp : normalize_platform w with _ | c <;> rw [hnp] at h1
        · cases h1
        · replace h1 : some (aReplace "platform" (.vstr c) p) = some q := h1
          injection h1 with h1
          subst h1
          refine Or.inr (Or.inr ⟨w, c, rfl, hnp, ?_⟩)
          rw [hkeep]
          exact alookup_aReplace_self hp


/-- Claim C8 (confirmed): `TestCaseSchema.load` is idempotent on its own
output: a record it accepts, fed back through the schema, loads again and
comes back unchanged. -/
theorem test_case_schema_load_idempotent (p r : AList)
    (h : TestCaseSchema.load p = some r) : TestCaseSchema.load r = some r := by
  simp only [TestCaseSchema.load] at h ⊢
  rcases hpre : preLoadNormalize p with _ | p1 <;> rw [hpre] at h
  · cases h
  · replace h : (if (akeys p1).all (fun k => fieldNames.contains k) then
        loadFields fieldSpecs p1 else none) = some r := h
    rcases hunk : (akeys p1).all (fun k => fieldNames.contains k) with _ | _ <;> rw [hunk] at h
    · rw [if_neg (by simp)] at h
      cases h
    · rw [if_pos rfl] at h
      have hnd : (fieldSpecs.map Prod.fst).Nodup := by decide
      have hsub := loadFields_sublist h
      have hkeys_sub : ∀ k ∈ akeys r, k ∈ fieldNames := fun k hk => hsub.subset hk
      have hrnd : (akeys r).Nodup := hsub.nodup (by decide)
      have hreq : (alookup "platform" p1).isSome = true :=
        loadFields_required_isSome h "platform" .strReq (by decide) rfl
      rcases hpv : alookup "platform" p1 with _ | v
      · rw [hpv] at hreq
        cases hreq
      · have hcv : FieldKind.strReq.checkVal v = true :=
          loadFields_checkVal_of_mem hnd h "platform" .strReq v (by decide) hpv
        obtain ⟨s, rfl⟩ := checkVal_strReq_shape hcv
        rcases preLoad_platform hpre with h0 | h0 | ⟨w, c, hw, hnc, h0⟩
        · rw [h0] at hpv
          cases hpv
        · rw [h0] at hpv
          injection hpv with hpv
          injection hpv
        · rw [h0] at hpv
          injection hpv with hpv
          injection hpv with hpv
          subst hpv
          have hplr : alookup "platform" r = some (.vstr c) := by
            rw [loadFields_lookup_eq hnd h "platform" (by decide)]
            exact h0
          have hnpk : normalizePlatformKey r = some r := by
            simp only [normalizePlatformKey, hplr]
            rw [if_neg (fun hx => PyVal.noConfusion hx)]
            rw [normalize_platform_canonical hnc]
            show some (aReplace "platform" (.vstr c) r) = some r
            rw [aReplace_self_eq hrnd hplr]
          have hauk : normalizeAutomatedKey r = some r := by
            have hnone : alookup "Automated" r = none := by
              rw [alookup_eq_none_iff]
              intro hin
              have hmem := hkeys_sub _ hin
              revert hmem
              decide
            simp only [normalizeAutomatedKey, hnone]
          have hpr : preLoadNormalize r = some r := by
            simp only [preLoadNormalize, hnpk]
            exact hauk
          rw [hpr]
          have hall : ((akeys r).all (fun k => fieldNames.contains k)) = true := by
            rw [List.all_eq_true]
            intro k hk
            have hmem := hkeys_sub k hk
            simpa using hmem
          show (if (akeys r).all (fun k => fieldNames.contains k) then
              loadFields fieldSpecs r else none) = some r
          rw [hall, if_pos rfl]
          exact loadFields_idem hnd h

/-- Witness for C8: a concrete accepted record reloads to itself. -/
theorem test_case_schema_load_idempotent_witness :
    TestCaseSchema.load [("vuln_id", .vstr "TCS_1"), ("vuln_name", .vstr "n"),
        ("platform", .vstr "Web"), ("automated", .vstr "yes")] =
      some [("vuln_id", .vstr "TCS_1"), ("vuln_name", .vstr "n"),
        ("platform", .vstr "Web"), ("automated", .vstr "yes")] :=
  test_case_schema_load_idempotent
    [("vuln_id", .vstr "TCS_1"), ("vuln_name", .vstr "n"),
      ("platform", .vstr " weB "), ("automated", .vstr "yes")]
    [("vuln_id", .vstr "TCS_1"), ("vuln_name", .vstr "n"),
      ("platform", .vstr "Web"), ("automated", .vstr "yes")]
    (by decide)


theorem alookup_append {k : String} : ∀ {a b : AList},
    alookup k (a ++ b) =
      match alookup k a with
      | some v => some v
      | none => alookup k b
  | [], b => rfl
  | (k1, v1) :: rest, b => by
    by_cases h1 : k1 = k
    · simp only [List.cons_append, alookup, if_pos h1]
    · simp only [List.cons_append, alookup, if_neg h1]
      exact alookup_append

theorem akeys_map_update {u : AList} : ∀ {d : AList},
    akeys (d.map (fun kv =>
      match alookup kv.1 u with
      | some v => (kv.1, v)
      | none => kv)) = akeys d
  | [] => rfl
  | (k1, v1) :: rest => by
    simp only [List.map_cons, akeys]
    rcases hm : alookup k1 u with _ | w <;> dsimp only <;>
      simpa [akeys] using akeys_map_update (u := u) (d := rest)

theorem alookup_map_update {k : String} {u : AList} (hk : alookup k u = none) :
    ∀ {d : AList}, alookup k (d.map (fun kv =>
      match alookup kv.1 u with
      | some v => (kv.1, v)
      | none => kv)) = alookup k d
  | [] => rfl
  | (k1, v1) :: rest => by
    simp only [List.map_cons]
    rcases hm : alookup k1 u with _ | w <;> dsimp only
    · simp only [alookup]
      by_cases h1 : k1 = k
      · rw [if_pos h1, if_pos h1]
      · rw [if_neg h1, if_neg h1]
        exact alookup_map_update hk
    · simp only [alookup]
      by_cases h1 : k1 = k
      · subst h1
        rw [hm] at hk
        cases hk
      · rw [if_neg h1, if_neg h1]
        exact alookup_map_update hk

theorem akeys_filter_not_contains {d u : AList} :
    akeys (u.filter (fun kv => !(akeys d).contains kv.1)) =
      (akeys u).filter (fun k2 => !(akeys d).contains k2) :=
  akeys_filter_key (fun k2 => !(akeys d).contains k2) u

/-- Membership in the keys of a dict update. -/
theorem akeys_aUpdate_mem {k : String} {d u : AList} :
    k ∈ akeys (aUpdate d u) ↔ (k ∈ akeys d ∨ k ∈ akeys u) := by
  unfold aUpdate
  rw [akeys_append, akeys_map_update, akeys_filter_not_contains]
  simp only [List.mem_append, List.mem_filter]
  constructor
  · rintro (h | ⟨h1, _⟩)
    · exact Or.inl h
    · exact Or.inr h1
  · rintro (h | h)
    · exact Or.inl h
    · by_cases hd : k ∈ akeys d
      · exact Or.inl hd
      · refine Or.inr ⟨h, ?_⟩
        simpa using hd

/-- A key absent from the update set is untouched by `$set`. -/
theorem alookup_aUpdate_not_mem {k : String} {d u : AList} (hk : k ∉ akeys u) :
    alookup k (aUpdate d u) = alookup k d := by
  have hku : alookup k u = none := alookup_eq_none_iff.mpr hk
  unfold aUpdate
  rw [alookup_append, alookup_map_update hku]
  rcases hd : alookup k d with _ | v
  · rw [alookup_eq_none_iff.mpr]
    rw [akeys_filter_not_contains]
    intro hmem
    exact hk (List.mem_of_mem_filter hmem)
  · rfl


theorem processItem_upd_inv {item : AList} {vid : PyVal} {ud : AList}
    (h : processItem item = .upd vid ud) :
    ∃ validated,
      alookup "vuln_id" item = some vid ∧
      TestCaseSchema.load (aUpdate [("vuln_id", vid), ("vuln_name", .vstr "DUMMY_NAME")]
        (item.filter (fun kv => !(kv.1 = "vuln_id")))) = some validated ∧
      ud = (validated.filter (fun kv =>
          !((kv.1 = "vuln_id" || kv.1 = "vuln_name") && !(akeys item).contains kv.1))).filter
        (fun kv => (akeys item).contains kv.1 && !(kv.1 = "vuln_id")) := by
  simp only [processItem] at h
  split at h
  · cases h
  · split at h
    · cases h
    · split at h
      · cases h
      · injection h with h1 h2
        subst h1
        rename_i x1 vid0 hvid hup x2 validated hload
        exact ⟨validated, hvid, hload, h2.symm⟩


/-- The keys of a loaded record are exactly the payload keys. -/
theorem load_keys {p out : AList} (h : TestCaseSchema.load p = some out) (k : String) :
    k ∈ akeys out ↔ k ∈ akeys p := by
  simp only [TestCaseSchema.load] at h
  rcases hpre : preLoadNormalize p with _ | p1 <;> rw [hpre] at h
  · cases h
  · replace h : (if (akeys p1).all (fun k2 => fieldNames.contains k2) then
        loadFields fieldSpecs p1 else none) = some out := h
    rcases hunk : (akeys p1).all (fun k2 => fieldNames.contains k2) with _ | _ <;> rw [hunk] at h
    · rw [if_neg (by simp)] at h
      cases h
    · rw [if_pos rfl] at h
      have hkeq := preLoadNormalize_keys hpre
      rw [loadFields_keys_iff h k, ← hkeq]
      constructor
      · rintro ⟨_, hp⟩
        exact hp
      · intro hp
        refine ⟨?_, hp⟩
        have hc := List.all_eq_true.mp hunk k hp
        simpa [fieldNames] using hc

theorem mem_akeys_filter_key {g : String → Bool} {p : AList} {k : String} :
    k ∈ akeys (p.filter (fun kv => g kv.1)) ↔ (k ∈ akeys p ∧ g k = true) := by
  rw [akeys_filter_key]
  simp only [List.mem_filter]

theorem contains_iff_mem {l : List String} {k : String} : l.contains k = true ↔ k ∈ l :=
  List.elem_iff

/-- Claim C7 (confirmed): the update document built for a PUT item carries
exactly the non-key fields the caller sent (its key set is the item key set
minus `vuln_id`); the placeholder `vuln_name` never leaks when the caller
did not send that field; and the storage `$set` leaves every field outside
the update document unchanged. -/
theorem update_doc_exact_fields (item : AList) (vid : PyVal) (ud : AList)
    (h : processItem item = .upd vid ud) :
    (∀ k, k ∈ akeys ud ↔ (k ∈ akeys item ∧ k ≠ "vuln_id")) ∧
    ("vuln_name" ∉ akeys item → alookup "vuln_name" ud = none) ∧
    (∀ doc k, k ∉ akeys ud → alookup k (applySet doc ud) = alookup k doc) := by
  obtain ⟨validated, hvid, hload, hud⟩ := processItem_upd_inv h
  have hkeys : ∀ k, k ∈ akeys ud ↔ (k ∈ akeys item ∧ k ≠ "vuln_id") := by
    intro k
    have h3 : k ∈ akeys validated ↔
        (k ∈ akeys ([("vuln_id", vid), ("vuln_name", PyVal.vstr "DUMMY_NAME")] : AList) ∨
         k ∈ akeys (item.filter (fun kv => !(kv.1 = "vuln_id")))) :=
      (load_keys hload k).trans akeys_aUpdate_mem
    have hbase : k ∈ akeys ([("vuln_id", vid), ("vuln_name", PyVal.vstr "DUMMY_NAME")] : AList) ↔
        (k = "vuln_id" ∨ k = "vuln_name") := by
      simp [akeys]
    have hup : k ∈ akeys (item.filter (fun kv => !(kv.1 = "vuln_id"))) ↔
        (k ∈ akeys item ∧ (!(k = "vuln_id" : Bool)) = true) :=
      mem_akeys_filter_key (g := fun k2 => !(k2 = "vuln_id"))
    have h2 : k ∈ akeys (validated.filter (fun kv =>
        !((kv.1 = "vuln_id" || kv.1 = "vuln_name") && !(akeys item).contains kv.1))) ↔
        (k ∈ akeys validated ∧
          (!((k = "vuln_id" || k = "vuln_name") && !(akeys item).contains k)) = true) :=
      mem_akeys_filter_key
        (g := fun k2 => !((k2 = "vuln_id" || k2 = "vuln_name") && !(akeys item).contains k2))
    have h1 : k ∈ akeys ud ↔
        (k ∈ akeys (validated.filter (fun kv =>
          !((kv.1 = "vuln_id" || kv.1 = "vuln_name") && !(akeys item).contains kv.1))) ∧
         ((akeys item).contains k && !(k = "vuln_id")) = true) := by
      rw [hud]
      exact mem_akeys_filter_key (g := fun k2 => (akeys item).contains k2 && !(k2 = "vuln_id"))
    rw [h1, h2, h3, hbase, hup]
    simp only [Bool.and_eq_true, Bool.or_eq_true, Bool.not_eq_true', Bool.and_eq_false_iff,
      Bool.or_eq_false_iff, decide_eq_true_eq, decide_eq_false_iff_not, Bool.not_eq_false']
    constructor
    · rintro ⟨⟨hv, hc1⟩, hc2, hc3⟩
      exact ⟨contains_iff_mem.mp hc2, hc3⟩
    · rintro ⟨hmem, hne⟩
      refine ⟨⟨Or.inr ⟨hmem, by simpa using hne⟩, ?_⟩, contains_iff_mem.mpr hmem, hne⟩
      right
      simpa [contains_iff_mem] using hmem
  refine ⟨hkeys, ?_, ?_⟩
  · intro hnm
    rw [alookup_eq_none_iff]
    intro hin
    exact hnm ((hkeys "vuln_name").mp hin).1
  · intro doc k hk
    exact alookup_aUpdate_not_mem hk


/-- Claim C7 (code bug): the dummy payload used to validate a partial update
supplies only `vuln_id` and `vuln_name` (the comment in the source says the
schema requires just those), but `platform` is also a required field of
`TestCaseSchema`, so a partial update that does not itself carry `platform`
always fails validation with a 400 and no storage update happens — in
particular the claimed example item; when the item does carry `platform`,
the update document is exact as claimed. -/
theorem update_partial_without_platform_fails :
    processItem [("vuln_id", .vstr "TCS_1"), ("severity", .vstr "High")] = .err ∧
    TestCaseSchema.load [("vuln_id", .vstr "TCS_1"), ("vuln_name", .vstr "DUMMY_NAME"),
      ("severity", .vstr "High")] = none ∧
    TestCaseSchema.load [("vuln_id", .vstr "TCS_1"), ("vuln_name", .vstr "DUMMY_NAME"),
      ("severity", .vstr "High"), ("platform", .vstr "Web")] =
      some [("vuln_id", .vstr "TCS_1"), ("vuln_name", .vstr "DUMMY_NAME"),
        ("platform", .vstr "Web"), ("severity", .vstr "High")] ∧
    processItem [("vuln_id", .vstr "TCS_1"), ("severity", .vstr "High"),
        ("platform", .vstr "Web")] =
      .upd (.vstr "TCS_1") [("platform", .vstr "Web"), ("severity", .vstr "High")] := by
  decide

/-- Claim C9 (confirmed): bulk insert validation is atomic: when any item of
the POST payload fails schema validation, the endpoint returns 400 and hands
nothing to storage. -/
theorem add_test_cases_atomic (items : List AList)
    (h : ∃ item ∈ items, TestCaseSchema.load item = none) :
    add_test_cases items = (400, []) := by
  obtain ⟨bad, hmem, hbad⟩ := h
  have hva : validateAll items = none := by
    induction items with
    | nil => cases hmem
    | cons i rest ih =>
      rcases List.mem_cons.mp hmem with rfl | hmem2
      · simp only [validateAll, hbad]
      · simp only [validateAll]
        rcases hi : TestCaseSchema.load i with _ | doc
        · rfl
        · rw [ih hmem2]
          rfl
  simp only [add_test_cases, hva]

/-- Witness for C9: a batch whose first item is valid and second is not
yields 400 and no inserts. -/
theorem add_test_cases_atomic_witness :
    add_test_cases
      [[("vuln_id", .vstr "TCS_1"), ("vuln_name", .vstr "n"), ("platform", .vstr "LLM")],
       [("vuln_id", .vstr "TCS_2")]] = (400, []) :=
  add_test_cases_atomic _ ⟨[("vuln_id", .vstr "TCS_2")], by decide, by decide⟩

/-- Claim C10 (confirmed): a PUT item that carries `vuln_id` and nothing
else is silently skipped by the update loop: the outcome over any batch and
any store is as if the item were absent, so it is neither counted as updated
nor reported as not found, and no storage operation is issued for it, even
when no record with that id exists. -/
theorem update_skips_id_only_items (store : List PyVal) (pre post : List AList)
    (item : AList) (st : UpdState)
    (h1 : "vuln_id" ∈ akeys item) (h2 : ∀ kv ∈ item, kv.1 = "vuln_id") :
    processUpdates store (pre ++ item :: post) st = processUpdates store (pre ++ post) st := by
  have hskip : processItem item = .skip := by
    have hvid : (alookup "vuln_id" item).isSome = true := alookup_isSome_iff.mpr h1
    rcases hv : alookup "vuln_id" item with _ | vid0
    · rw [hv] at hvid
      cases hvid
    · have hup : item.filter (fun kv => !(kv.1 = "vuln_id")) = [] := by
        rw [List.filter_eq_nil_iff]
        intro kv hkv
        simp [h2 kv hkv]
      simp only [processItem, hv, hup]
      rfl
  induction pre generalizing st with
  | nil =>
    simp only [List.nil_append, processUpdates, hskip]
  | cons hd tl ih =>
    simp only [List.cons_append, processUpdates]
    cases processItem hd with
    | err => rfl
    | skip => exact ih st
    | upd vid doc =>
      dsimp only
      by_cases hc : store.contains vid
      · rw [if_pos hc, if_pos hc]
        exact ih _
      · rw [if_neg hc, if_neg hc]
        exact ih _

/-- Witness for C10: skipping a concrete id-only item in a concrete batch. -/
theorem update_skips_id_only_items_witness :
    processUpdates [] [[("vuln_id", .vstr "TCS_9")]] ⟨0, [], []⟩ =
      processUpdates [] [] ⟨0, [], []⟩ :=
  update_skips_id_only_items [] [] [] [("vuln_id", .vstr "TCS_9")] ⟨0, [], []⟩
    (by decide) (by decide)

end TCE
